import Mathlib

/-!
Verification development for the HTML-listing-to-Atom-feed converter
(`scrape_anthropic_blog.py`).  The Python source is shallowly embedded:

* `parse_date` models the date-normalization function (CPython
  `datetime.strptime` with format `"%b %d, %Y"`, restricted to ASCII digits
  and ASCII whitespace, which is what the scraped pages contain).
* `urljoin` and friends model CPython 3.11 `urllib.parse.urljoin`
  (the non-raising paths; the IPv6-bracket and netloc NFKC checks, which
  raise for inputs the program never produces, are not modelled).
* XML elements built with `xml.etree.ElementTree` are modelled as the
  inductive value tree `XElem`; `BeautifulSoup` lookups on one article card
  are modelled by the `Article` record of the looked-up node data.
* The in-place `list.sort(key=..., reverse=True)` (a stable descending
  sort by the timestamp component) is modelled by a stable insertion sort,
  and is proved sorted, stable and a permutation - the three properties
  that determine a stable sort uniquely.
* For the aliasing/mutation claim about `copy.deepcopy` plus
  `Element.append`, elements are additionally modelled as nodes in an
  explicit heap (`Heap`), with ids as references.

Clock reads (`datetime.now(timezone.utc)`) are passed in explicitly as
`DateTime` arguments.
-/

/-! ### Python string helpers -/

/-- Whitespace characters stripped by Python `str.strip()` and matched by the
regex class `\s` (ASCII fragment). -/

def isPyWs (c : Char) : Bool :=
  c = ' ' || c = '\t' || c = '\n' || c = '\r' || c = '\x0b' || c = '\x0c'

/-- Model of Python `str.strip()` (ASCII whitespace). -/

def pystrip (s : String) : String :=
  String.mk (((s.toList.dropWhile isPyWs).reverse.dropWhile isPyWs).reverse)

/-! ### Timestamps

Aware UTC `datetime` values are modelled by their field tuple.  CPython
compares two datetimes with the same `tzinfo` lexicographically by fields,
which `dtLe` reproduces. -/

structure DateTime where
  year : Nat
  month : Nat
  day : Nat
  hour : Nat
  minute : Nat
  second : Nat
  micro : Nat
deriving DecidableEq, Repr

def DateTime.fieldList (d : DateTime) : List Nat :=
  [d.year, d.month, d.day, d.hour, d.minute, d.second, d.micro]

/-- Lexicographic comparison of equal-length Nat lists (`<=`). -/

def lexLe : List Nat → List Nat → Bool
  | [], _ => true
  | _ :: _, [] => false
  | a :: as, b :: bs => if a < b then true else if b < a then false else lexLe as bs

/-- Comparison used by the sort key (`item[0]`, the entry timestamp). -/

def dtLe (a b : DateTime) : Bool := lexLe a.fieldList b.fieldList

/-- Left-pad a numeral with zeros to the given width. -/

def padNum (w n : Nat) : String :=
  let s := toString n
  if s.length < w then String.mk (List.replicate (w - s.length) '0') ++ s else s

/-- Model of `datetime.isoformat()` for an aware UTC value: the microsecond
part is printed only when nonzero, and the offset is `+00:00`. -/

def isoformat (d : DateTime) : String :=
  padNum 4 d.year ++ "-" ++ padNum 2 d.month ++ "-" ++ padNum 2 d.day ++ "T" ++
  padNum 2 d.hour ++ ":" ++ padNum 2 d.minute ++ ":" ++ padNum 2 d.second ++
  (if d.micro = 0 then "" else "." ++ padNum 6 d.micro) ++ "+00:00"

/-! ### Date parsing (`parse_date`)

`datetime.strptime(s, "%b %d, %Y")` compiles the format to the regex
`(?:jan|feb|...|dec)\s+(?:3[01]|[12]\d|0[1-9]|[1-9]),\s+\d\d\d\d`
(case-insensitive month, full match required), then validates the day
against the month length and the year against `MINYEAR = 1`. -/

def digitVal (c : Char) : Nat := c.toNat - '0'.toNat

def isDigitCh (c : Char) : Bool := '0' ≤ c && c ≤ '9'

def lowerChar (c : Char) : Char :=
  if 'A' ≤ c && c ≤ 'Z' then Char.ofNat (c.toNat + 32) else c

def monthAbbrevs : List String :=
  ["jan", "feb", "mar", "apr", "may", "jun", "jul", "aug", "sep", "oct", "nov", "dec"]

/-- Match a three-letter month abbreviation (case-insensitively), returning the
month number and the rest of the input. -/

def matchMonth : List Char → Option (Nat × List Char)
  | c1 :: c2 :: c3 :: rest =>
    match monthAbbrevs.findIdx? (fun m =>
        m == String.mk [lowerChar c1, lowerChar c2, lowerChar c3]) with
    | some i => some (i + 1, rest)
    | none => none
  | _ => none

/-- Match the regex `\s+` that a literal space in the strptime format expands to. -/

def skipWs1 : List Char → Option (List Char)
  | c :: rest => if isPyWs c then some (rest.dropWhile isPyWs) else none
  | [] => none

/-- Match the `%d` regex alternation `3[01]|[12]\d|0[1-9]|[1-9]`. -/

def matchDay : List Char → Option (Nat × List Char)
  | c1 :: c2 :: rest =>
    if c1 = '3' && (c2 = '0' || c2 = '1') then some (30 + digitVal c2, rest)
    else if (c1 = '1' || c1 = '2') && isDigitCh c2 then
      some (10 * digitVal c1 + digitVal c2, rest)
    else if c1 = '0' && ('1' ≤ c2 && c2 ≤ '9') then some (digitVal c2, rest)
    else if '1' ≤ c1 && c1 ≤ '9' then some (digitVal c1, c2 :: rest)
    else none
  | [c1] => if '1' ≤ c1 && c1 ≤ '9' then some (digitVal c1, []) else none
  | [] => none

/-- Match the `%Y` regex `\d\d\d\d`. -/

def matchYear : List Char → Option (Nat × List Char)
  | a :: b :: c :: d :: rest =>
    if isDigitCh a && isDigitCh b && isDigitCh c && isDigitCh d then
      some (((digitVal a * 10 + digitVal b) * 10 + digitVal c) * 10 + digitVal d, rest)
    else none
  | _ => none

def isLeapYear (y : Nat) : Bool :=
  y % 4 = 0 && (y % 100 ≠ 0 || y % 400 = 0)

def daysInMonth (y m : Nat) : Nat :=
  if m = 2 then (if isLeapYear y then 29 else 28)
  else if m = 4 || m = 6 || m = 9 || m = 11 then 30
  else 31

/-- Validation performed by the `datetime` constructor: `MINYEAR <= year` and
the day fits the month (the regex already bounds month and day from below). -/

def validYMD (y m d : Nat) : Bool := 1 ≤ y && d ≤ daysInMonth y m

/-- Model of `datetime.strptime(s, "%b %d, %Y")`: `some (y, m, d)` on success,
`none` when the call raises `ValueError`. -/

def parseDateText (s : String) : Option (Nat × Nat × Nat) :=
  match matchMonth s.toList with
  | none => none
  | some (m, r1) =>
    match skipWs1 r1 with
    | none => none
    | some r2 =>
      match matchDay r2 with
      | none => none
      | some (d, r3) =>
        match r3 with
        | ',' :: r4 =>
          match skipWs1 r4 with
          | none => none
          | some r5 =>
            match matchYear r5 with
            | some (y, []) => if validYMD y m d then some (y, m, d) else none
            | _ => none
        | _ => none

/-- Timestamp produced on a successful parse: noon UTC on the parsed date
(`replace(hour=12, minute=0, second=0, tzinfo=timezone.utc)`; strptime leaves
the microsecond at zero). -/

def noonUTC (y m d : Nat) : DateTime := ⟨y, m, d, 12, 0, 0, 0⟩

/-- Diagnostic printed to stderr in the `ValueError` branch. -/

def warnMsg (t : String) : String :=
  "Warning: Could not parse date \x27" ++ t ++ "\x27. Defaulting to now."

/-- Model of `parse_date`.  `now` is the value `datetime.now(timezone.utc)`
would return at this call; the second component is the diagnostic written to
stderr (`none` when nothing is printed). -/

def parse_date (now : DateTime) (date_text : Option String) : DateTime × Option String :=
  match date_text with
  | none => (now, none)
  | some s =>
    if s = "" then (now, none)
    else
      let t := pystrip s
      match parseDateText t with
      | some (y, m, d) => (noonUTC y m d, none)
      | none => (now, some (warnMsg t))

/-! ### URL joining (`urllib.parse.urljoin`, CPython 3.11)

Transcription of `urlsplit` / `urlparse` / `urlunsplit` / `urlunparse` /
`urljoin` with `allow_fragments=True`.  The two raising paths (unbalanced
IPv6 brackets, non-NFKC netloc) are not modelled; no other behaviour is
changed. -/

def usesRelative : List String :=
  ["", "ftp", "http", "gopher", "nntp", "imap", "wais", "file", "https", "shttp",
   "mms", "prospero", "rtsp", "rtspu", "sftp", "svn", "svn+ssh", "ws", "wss"]

def usesNetloc : List String :=
  ["", "ftp", "http", "gopher", "nntp", "telnet", "imap", "wais", "file", "mms",
   "https", "shttp", "snews", "prospero", "rtsp", "rtspu", "rsync", "svn",
   "svn+ssh", "sftp", "nfs", "git", "git+ssh", "ws", "wss"]

def usesParams : List String :=
  ["", "ftp", "hdl", "prospero", "http", "imap", "https", "shttp", "rtsp",
   "rtspu", "sip", "sips", "mms", "sftp", "tel"]

def schemeChar (c : Char) : Bool :=
  c.isAlpha || c.isDigit || c = '+' || c = '-' || c = '.'

/-- Split a character list at the first occurrence of `c` (Python
`s.split(c, 1)` when `c` occurs; `none` when it does not). -/

def breakAt (c : Char) : List Char → Option (List Char × List Char)
  | [] => none
  | x :: xs =>
    if x = c then some ([], xs)
    else
      match breakAt c xs with
      | some (l, r) => some (x :: l, r)
      | none => none

/-- Bytes removed from URLs per the WHATWG spec (`\t`, `\r`, `\n`). -/

def removeUnsafe (cs : List Char) : List Char :=
  cs.filter (fun c => !(c = '\t' || c = '\r' || c = '\n'))

/-- Test `s[:1] == c` (Python slicing is total on short strings). -/

def headIs (cs : List Char) (c : Char) : Bool :=
  match cs with
  | x :: _ => x = c
  | [] => false

/-- Test `s[:2] == "//"`-style prefixes. -/

def head2Is (cs : List Char) (c1 c2 : Char) : Bool :=
  match cs with
  | x :: y :: _ => x = c1 && y = c2
  | _ => false

/-- Model of Python `str.split(c)` (single-character separator, keeping
empty pieces). -/

def splitOnCharAux (c : Char) : List Char → List Char → List String
  | [], acc => [String.mk acc.reverse]
  | x :: xs, acc =>
    if x = c then String.mk acc.reverse :: splitOnCharAux c xs []
    else splitOnCharAux c xs (x :: acc)

def splitOnChar (c : Char) (cs : List Char) : List String :=
  splitOnCharAux c cs []

/-- Model of Python `sep.join(pieces)`. -/

def joinWith (sep : String) : List String → String
  | [] => ""
  | [x] => x
  | x :: y :: xs => x ++ sep ++ joinWith sep (y :: xs)

structure SplitResult where
  scheme : String
  netloc : String
  path : String
  query : String
  fragment : String
deriving DecidableEq, Repr

structure ParseResult where
  scheme : String
  netloc : String
  path : String
  params : String
  query : String
  fragment : String
deriving DecidableEq, Repr

/-- Model of `urllib.parse.urlsplit(url, scheme)` with fragments allowed. -/

def urlsplit (url : String) (scheme0 : String) : SplitResult :=
  let cs := removeUnsafe url.toList
  let s0 := removeUnsafe scheme0.toList
  let (scheme, rest) :=
    match breakAt ':' cs with
    | some (pre, post) =>
      (match pre with
       | [] => (s0, cs)
       | p :: _ =>
         if p.isAlpha && pre.all schemeChar then (pre.map lowerChar, post) else (s0, cs))
    | none => (s0, cs)
  let (netloc, rest2) :=
    if rest.take 2 = ['/', '/'] then
      ((rest.drop 2).takeWhile (fun c => !(c = '/' || c = '?' || c = '#')),
       (rest.drop 2).dropWhile (fun c => !(c = '/' || c = '?' || c = '#')))
    else ([], rest)
  let (rest3, fragment) :=
    match breakAt '#' rest2 with
    | some (l, r) => (l, r)
    | none => (rest2, [])
  let (path, query) :=
    match breakAt '?' rest3 with
    | some (l, r) => (l, r)
    | none => (rest3, [])
  ⟨String.mk scheme, String.mk netloc, String.mk path, String.mk query, String.mk fragment⟩

/-- Model of `urllib.parse._splitparams`: split the path at the first `;`
occurring after the last `/` (or anywhere when the path has no `/`). -/

def splitparams (cs : List Char) : List Char × List Char :=
  if cs.contains '/' then
    let tail := (cs.reverse.takeWhile (fun c => c ≠ '/')).reverse
    let pre := cs.take (cs.length - tail.length)
    match breakAt ';' tail with
    | some (l, r) => (pre ++ l, r)
    | none => (cs, [])
  else
    match breakAt ';' cs with
    | some (l, r) => (l, r)
    | none => (cs, [])

/-- Model of `urllib.parse.urlparse(url, scheme)` with fragments allowed. -/

def urlparse (url : String) (scheme0 : String) : ParseResult :=
  let s := urlsplit url scheme0
  if usesParams.contains s.scheme && s.path.toList.contains ';' then
    let (p, par) := splitparams s.path.toList
    ⟨s.scheme, s.netloc, String.mk p, String.mk par, s.query, s.fragment⟩
  else
    ⟨s.scheme, s.netloc, s.path, "", s.query, s.fragment⟩

/-- Model of `urllib.parse.urlunsplit`. -/

def urlunsplit (r : SplitResult) : String :=
  let url := r.path
  let url :=
    if r.netloc ≠ "" ||
        (r.scheme ≠ "" && usesNetloc.contains r.scheme && !(head2Is url.toList '/' '/')) then
      "//" ++ r.netloc ++
        (if url ≠ "" && !(headIs url.toList '/') then "/" ++ url else url)
    else url
  let url := if r.scheme ≠ "" then r.scheme ++ ":" ++ url else url
  let url := if r.query ≠ "" then url ++ "?" ++ r.query else url
  if r.fragment ≠ "" then url ++ "#" ++ r.fragment else url

/-- Model of `urllib.parse.urlunparse`. -/

def urlunparse (r : ParseResult) : String :=
  urlunsplit ⟨r.scheme, r.netloc,
    (if r.params ≠ "" then r.path ++ ";" ++ r.params else r.path), r.query, r.fragment⟩

/-- Filter applied by `segments[1:-1] = filter(None, segments[1:-1])`: drop
empty strings strictly between the first and last element. -/

def filterInner : List String → List String
  | [] => []
  | [x] => [x]
  | x :: xs => if x = "" then filterInner xs else x :: filterInner xs

def filterMiddle : List String → List String
  | [] => []
  | x :: xs => x :: filterInner xs

/-- Model of `urllib.parse.urljoin(base, url)`. -/

def urljoin (base url : String) : String :=
  if base = "" then url
  else if url = "" then base
  else
    let b := urlparse base ""
    let u := urlparse url b.scheme
    if u.scheme ≠ b.scheme || !(usesRelative.contains u.scheme) then url
    else if usesNetloc.contains u.scheme && u.netloc ≠ "" then
      urlunparse ⟨u.scheme, u.netloc, u.path, u.params, u.query, u.fragment⟩
    else
      let netloc := if usesNetloc.contains u.scheme then b.netloc else u.netloc
      if u.path = "" && u.params = "" then
        urlunparse ⟨u.scheme, netloc, b.path, b.params,
          (if u.query = "" then b.query else u.query), u.fragment⟩
      else
        let base_parts0 := splitOnChar '/' b.path.toList
        let base_parts :=
          if base_parts0.getLast? = some "" then base_parts0 else base_parts0.dropLast
        let segments :=
          if headIs u.path.toList '/' then splitOnChar '/' u.path.toList
          else filterMiddle (base_parts ++ splitOnChar '/' u.path.toList)
        let resolved := segments.foldl
          (fun acc seg =>
            if seg = ".." then acc.dropLast
            else if seg = "." then acc
            else acc ++ [seg]) ([] : List String)
        let resolved :=
          if segments.getLast? = some "." || segments.getLast? = some ".." then
            resolved ++ [""]
          else resolved
        let joined := joinWith "/" resolved
        urlunparse ⟨u.scheme, netloc, (if joined = "" then "/" else joined),
          u.params, u.query, u.fragment⟩

/-! ### XML element values

`xml.etree.ElementTree` elements are modelled by their value tree: tag,
attributes in insertion order, text (`none` models Python `None`), children
in document order. -/

inductive XElem where
  | mk (tag : String) (attrs : List (String × String)) (text : Option String)
      (children : List XElem)
deriving Repr

def XElem.tag : XElem → String
  | .mk t _ _ _ => t

def XElem.attrs : XElem → List (String × String)
  | .mk _ a _ _ => a

def XElem.text : XElem → Option String
  | .mk _ _ x _ => x

def XElem.children : XElem → List XElem
  | .mk _ _ _ c => c

/-- Lookup of the first child with a given tag. -/

def XElem.childNamed (e : XElem) (t : String) : Option XElem :=
  e.children.find? (fun c => c.tag == t)

/-- Text of the first child with a given tag (`none` when no such child). -/

def XElem.childText (e : XElem) (t : String) : Option String :=
  match e.childNamed t with
  | some c => c.text
  | none => none

/-- Child elements tagged `entry`. -/

def entryNodes (doc : XElem) : List XElem :=
  doc.children.filter (fun c => c.tag == "entry")

/-! ### Extraction (`create_base_feed_and_entries`)

BeautifulSoup lookups on one `article` card are modelled by the data the
code reads from them: `titleElem`/`summaryElem`/`dateElem` carry the `.text`
of the first matching node (`none` when `find` returned `None`),
`linkElem`/`imgElem` carry the relevant attributes of the first matching
node. -/

structure LinkElem where
  href : Option String
deriving DecidableEq, Repr

structure ImgElem where
  src : Option String
  alt : Option String
deriving DecidableEq, Repr

structure Article where
  titleElem : Option String
  linkElem : Option LinkElem
  summaryElem : Option String
  dateElem : Option String
  imgElem : Option ImgElem
deriving Repr

/-- Extracted title: `title_elem.text.strip() if title_elem else "Unknown Article"`. -/

def articleTitle (a : Article) : String :=
  match a.titleElem with
  | some t => pystrip t
  | none => "Unknown Article"

/-- Extracted href: `link_elem["href"] if link_elem and link_elem.get("href") else ""`
(a missing node, a missing attribute and an empty attribute all give `""`). -/

def articleHref (a : Article) : String :=
  match a.linkElem with
  | some l =>
    match l.href with
    | some h => if h = "" then "" else h
    | none => ""
  | none => ""

/-- Extracted summary variable: `summary_elem.text.strip() if summary_elem else ""`. -/

def articleSummary (a : Article) : String :=
  match a.summaryElem with
  | some s => pystrip s
  | none => ""

/-- Extracted date text: `date_elem.text.strip() if date_elem else None`. -/

def articleDateText (a : Article) : Option String :=
  a.dateElem.map pystrip

/-- Extracted image data: present when `img_elem and img_elem.get("src")` is
truthy; the alt text is `img_elem.get("alt", "")`. -/

def articleImg (a : Article) : Option (String × String) :=
  match a.imgElem with
  | some img =>
    match img.src with
    | some src => if src = "" then none else some (src, img.alt.getD "")
    | none => none
  | none => none

/-- Record-level summary in the sense of the spec data model: absent rather
than empty when no (nonempty) summary was extracted. -/

def articleSummaryOpt (a : Article) : Option String :=
  if articleSummary a = "" then none else some (articleSummary a)

/-- Model of the per-article body of the extraction loop: builds the `entry`
element and the timestamp used as sort key.  `now` is the UTC instant
`datetime.now(timezone.utc)` would deliver inside this iteration. -/

def buildEntry (base_url : String) (now : DateTime) (a : Article) :
    DateTime × XElem :=
  let title := articleTitle a
  let article_url := urljoin base_url (articleHref a)
  let summary := articleSummary a
  let updated_dt := (parse_date now (articleDateText a)).1
  let content : Option String :=
    match articleImg a with
    | some (src, alt) =>
      some ((if summary = "" then "" else "<p>" ++ summary ++ "</p>") ++
        "<p><img src=\"" ++ src ++ "\" alt=\"" ++ alt ++ "\" /></p>")
    | none =>
      if summary = "" then none else some ("<p>" ++ summary ++ "</p>")
  let entry : XElem :=
    ⟨"entry", [], none,
      ⟨"title", [], some title, []⟩ ::
      ⟨"id", [], some article_url, []⟩ ::
      ⟨"link", [("href", article_url)], none, []⟩ ::
      ((if summary = "" then [] else [⟨"summary", [], some summary, []⟩]) ++
        ⟨"updated", [], some (isoformat updated_dt), []⟩ ::
        (match content with
         | some c => [⟨"content", [("type", "html")], some c, []⟩]
         | none => []))⟩
  (updated_dt, entry)

/-- Base `<feed>` element with the metadata children, in construction order. -/

def baseFeedElem (base_url : String) (nowFeed : DateTime) : XElem :=
  ⟨"feed", [("xmlns", "http://www.w3.org/2005/Atom")], none,
    [⟨"title", [], some "Anthropic Engineering Blog", []⟩,
     ⟨"id", [], some base_url, []⟩,
     ⟨"author", [], none, [⟨"name", [], some "Anthropic", []⟩]⟩,
     ⟨"link", [("href", base_url), ("rel", "self")], none, []⟩,
     ⟨"updated", [], some (isoformat nowFeed), []⟩]⟩

/-- Model of `create_base_feed_and_entries(soup, base_url)`.  `articles` is the
result of the record-shape selector (`soup.find_all("article", class_=...)`),
`nowFeed` the clock read for the feed-level `updated`, and `nowAt i` the clock
read available to `parse_date` in iteration `i`. -/

def create_base_feed_and_entries (base_url : String) (nowFeed : DateTime)
    (nowAt : Nat → DateTime) (articles : List Article) :
    XElem × List (DateTime × XElem) :=
  (baseFeedElem base_url nowFeed,
   articles.enum.map (fun p => buildEntry base_url (nowAt p.1) p.2))

/-! ### Assembly (`save_atom_feed` and the `html_to_atom` pipeline) -/

/-- Document built by `save_atom_feed`: a deep copy of the base feed element
with the entry elements appended (value view; the aliasing behaviour is
modelled separately on `Heap` below). -/

def save_atom_feed (base_feed : XElem) (entries_data : List (DateTime × XElem)) :
    XElem :=
  ⟨base_feed.tag, base_feed.attrs, base_feed.text,
   base_feed.children ++ entries_data.map (fun e => e.2)⟩

/-- Stable insertion of one element into a descending-sorted list: the new
element goes after every element whose key is greater than or equal to its
own.  Models where Python's stable sort places tied elements. -/

def insertDesc (x : DateTime × XElem) :
    List (DateTime × XElem) → List (DateTime × XElem)
  | [] => [x]
  | y :: ys => if dtLe x.1 y.1 then y :: insertDesc x ys else x :: y :: ys

/-- Model of `entries_data.sort(key=lambda item: item[0], reverse=True)`:
the stable descending sort by the timestamp component.  (Python's `list.sort`
is documented stable, also with `reverse=True`; sortedness, stability and
permutation - proved below - characterise its output uniquely.) -/

def sortEntries (l : List (DateTime × XElem)) : List (DateTime × XElem) :=
  l.foldl (fun acc x => insertDesc x acc) []

/-- Core of `html_to_atom` after the HTML is parsed: extract, sort, and build
the full document and the recent (first 20) document. -/

def html_to_atom_core (base_url : String) (nowFeed : DateTime)
    (nowAt : Nat → DateTime) (articles : List Article) : XElem × XElem :=
  let base := (create_base_feed_and_entries base_url nowFeed nowAt articles).1
  let entries := (create_base_feed_and_entries base_url nowFeed nowAt articles).2
  let sorted := sortEntries entries
  (save_atom_feed base sorted, save_atom_feed base (sorted.take 20))

/-! ### Properties of the sort -/

/-- Relation that holds between any element and any later element of the
descending-sorted entry list. -/

def entGe (a b : DateTime × XElem) : Prop := dtLe b.1 a.1 = true

/-! ### Heap view of ElementTree elements

`save_atom_feed` receives element objects by reference, deep-copies the base
feed element, and appends the entry elements (by reference) to the copy.  To
state that this mutates neither the base feed element nor the entry elements,
elements are modelled as nodes in an explicit store with ids as references. -/

structure ENode where
  tag : String
  attrs : List (String × String)
  text : Option String
  children : List Nat
deriving DecidableEq, Repr

/-- Element store: an id is an index into the list; `Element.append` records
the child's id inside the parent's node. -/

abbrev Heap := List ENode

def emptyENode : ENode := ⟨"", [], none, []⟩

def emptyX : XElem := ⟨"", [], none, []⟩

/-- Model of `parent.append(child)`: rewrites only the parent's node. -/

def appendChild (h : Heap) (p c : Nat) : Heap :=
  match h[p]? with
  | some n => h.set p ⟨n.tag, n.attrs, n.text, n.children ++ [c]⟩
  | none => h

/-- Model of `copy.deepcopy` over a list of roots: every node of each subtree
is re-allocated at the end of the store; no existing node is touched.  `fuel`
bounds the recursion depth; on a well-formed heap any value above the root id
suffices, so the model agrees with the unbounded Python recursion there. -/

def deepcopyL (fuel : Nat) (h : Heap) (ids : List Nat) : Heap × List Nat :=
  match fuel, ids with
  | _, [] => (h, [])
  | 0, _ :: is =>
    let r := deepcopyL 0 (h ++ [emptyENode]) is
    (r.1, h.length :: r.2)
  | fuel + 1, i :: is =>
    match h[i]? with
    | none =>
      let r := deepcopyL (fuel + 1) (h ++ [emptyENode]) is
      (r.1, h.length :: r.2)
    | some n =>
      let rc := deepcopyL fuel h n.children
      let r := deepcopyL (fuel + 1)
        (rc.1 ++ [⟨n.tag, n.attrs, n.text, rc.2⟩]) is
      (r.1, rc.1.length :: r.2)
termination_by (fuel, ids)

/-- Read the value trees rooted at the given ids out of the store (`fuel`
bounds the depth as in `deepcopyL`). -/

def readTreeL (fuel : Nat) (h : Heap) (ids : List Nat) : List XElem :=
  match fuel with
  | 0 => ids.map (fun _ => emptyX)
  | fuel + 1 =>
    ids.map (fun i =>
      match h[i]? with
      | none => emptyX
      | some n => ⟨n.tag, n.attrs, n.text, readTreeL fuel h n.children⟩)

/-- Value of the element stored under id `i` (depth `i + 1` always suffices on
a well-formed heap, where children have smaller ids than their parent). -/

def readElem (h : Heap) (i : Nat) : XElem :=
  (readTreeL (i + 1) h [i]).headD emptyX

/-- Well-formedness: every recorded child id is smaller than its parent's id.
Every heap built by allocating children before parents has this shape. -/

def heapWFFrom : Nat → List ENode → Bool
  | _, [] => true
  | i, n :: rest => n.children.all (fun c => decide (c < i)) && heapWFFrom (i + 1) rest

def heapWF (h : Heap) : Bool := heapWFFrom 0 h

/-- Model of `save_atom_feed` on the store: deep-copy the base feed element,
then append each entry element (by reference) to the copy.  Returns the new
store and the id of the built document. -/

def save_atom_feed_heap (h : Heap) (baseId : Nat)
    (entries : List (DateTime × Nat)) : Heap × Nat :=
  let rc := deepcopyL (baseId + 1) h [baseId]
  let cid := rc.2.headD 0
  (entries.foldl (fun hh e => appendChild hh cid e.2) rc.1, cid)

/-! ### Views of the two output documents -/

def extractedEntries (b : String) (nF : DateTime) (nA : Nat → DateTime)
    (arts : List Article) : List (DateTime × XElem) :=
  (create_base_feed_and_entries b nF nA arts).2

def fullFeedDoc (b : String) (nF : DateTime) (nA : Nat → DateTime)
    (arts : List Article) : XElem :=
  (html_to_atom_core b nF nA arts).1

def recentFeedDoc (b : String) (nF : DateTime) (nA : Nat → DateTime)
    (arts : List Article) : XElem :=
  (html_to_atom_core b nF nA arts).2

/-- Modelled from the spec: the content-synthesis formula of section 4.1 step
4, phrased over the record-level optional summary and optional image pair.
This is the specification side of the refinement claim C5. -/

def specContentFormula (summary : Option String) (img : Option (String × String)) :
    Option String :=
  match img with
  | some (i, a) =>
    some ((match summary with
           | some s => "<p>" ++ s ++ "</p>"
           | none => "") ++
      "<p><img src=\"" ++ i ++ "\" alt=\"" ++ a ++ "\" /></p>")
  | none =>
    match summary with
    | some s => some ("<p>" ++ s ++ "</p>")
    | none => none

theorem lexLe_cons_lt {a b : Nat} (as bs : List Nat) (h : a < b) :
    lexLe (a :: as) (b :: bs) = true := by
  simp [lexLe, h]

theorem lexLe_cons_gt {a b : Nat} (as bs : List Nat) (h : b < a) :
    lexLe (a :: as) (b :: bs) = false := by
  have h1 : ¬ a < b := by omega
  simp [lexLe, h, h1]

theorem lexLe_cons_self {a : Nat} (as bs : List Nat) :
    lexLe (a :: as) (a :: bs) = lexLe as bs := by
  simp [lexLe]

theorem lexLe_refl : ∀ as, lexLe as as = true := by
  intro as
  induction as with
  | nil => rfl
  | cons a as ih => rw [lexLe_cons_self]; exact ih

theorem lexLe_total : ∀ as bs, lexLe as bs = true ∨ lexLe bs as = true := by
  intro as
  induction as with
  | nil => intro bs; left; rfl
  | cons a as ih =>
    intro bs
    cases bs with
    | nil => right; rfl
    | cons b bs =>
      rcases Nat.lt_trichotomy a b with h | h | h
      · left; exact lexLe_cons_lt as bs h
      · subst h
        rw [lexLe_cons_self, lexLe_cons_self]
        exact ih bs
      · right; exact lexLe_cons_lt bs as h

theorem lexLe_trans : ∀ as bs cs, lexLe as bs = true → lexLe bs cs = true →
    lexLe as cs = true := by
  intro as
  induction as with
  | nil => intro bs cs _ _; rfl
  | cons a as ih =>
    intro bs cs h1 h2
    cases bs with
    | nil => simp [lexLe] at h1
    | cons b bs =>
      cases cs with
      | nil => simp [lexLe] at h2
      | cons c cs =>
        rcases Nat.lt_trichotomy a b with hab | hab | hab
        · rcases Nat.lt_trichotomy b c with hbc | hbc | hbc
          · exact lexLe_cons_lt as cs (Nat.lt_trans hab hbc)
          · subst hbc; exact lexLe_cons_lt as cs hab
          · rw [lexLe_cons_gt bs cs hbc] at h2; exact absurd h2 (by simp)
        · subst hab
          rw [lexLe_cons_self] at h1
          rcases Nat.lt_trichotomy a c with hac | hac | hac
          · exact lexLe_cons_lt as cs hac
          · subst hac
            rw [lexLe_cons_self] at h2 ⊢
            exact ih bs cs h1 h2
          · rw [lexLe_cons_gt bs cs hac] at h2; exact absurd h2 (by simp)
        · rw [lexLe_cons_gt as bs hab] at h1; exact absurd h1 (by simp)

theorem lexLe_antisymm : ∀ as bs, lexLe as bs = true → lexLe bs as = true →
    as = bs := by
  intro as
  induction as with
  | nil =>
    intro bs _ h2
    cases bs with
    | nil => rfl
    | cons b bs => simp [lexLe] at h2
  | cons a as ih =>
    intro bs h1 h2
    cases bs with
    | nil => simp [lexLe] at h1
    | cons b bs =>
      rcases Nat.lt_trichotomy a b with hab | hab | hab
      · rw [lexLe_cons_gt bs as hab] at h2; exact absurd h2 (by simp)
      · subst hab
        rw [lexLe_cons_self] at h1 h2
        rw [ih bs h1 h2]
      · rw [lexLe_cons_gt as bs hab] at h1; exact absurd h1 (by simp)

theorem dtLe_total (a b : DateTime) : dtLe a b = true ∨ dtLe b a = true :=
  lexLe_total _ _

theorem dtLe_trans {a b c : DateTime} (h1 : dtLe a b = true) (h2 : dtLe b c = true) :
    dtLe a c = true :=
  lexLe_trans _ _ _ h1 h2

theorem dtLe_antisymm {a b : DateTime} (h1 : dtLe a b = true) (h2 : dtLe b a = true) :
    a = b := by
  have := lexLe_antisymm _ _ h1 h2
  cases a; cases b
  simpa [DateTime.fieldList] using this

example : parseDateText "Sep 29, 2025" = some (2025, 9, 29) := by decide

example : parseDateText "sep 9, 2025" = some (2025, 9, 9) := by decide

example : parseDateText "29 Sep" = none := by decide

example : parseDateText "Feb 30, 2025" = none := by decide

example : parseDateText "Sep 29, 2025 x" = none := by decide

example :
    urljoin "https://example.com/engineering" "/2025/09/foo" =
      "https://example.com/2025/09/foo" := by decide

example :
    urljoin "https://example.com/engineering" "https://www.anthropic.com/news/x" =
      "https://www.anthropic.com/news/x" := by decide

example : urljoin "https://example.com/engineering" "" =
    "https://example.com/engineering" := by decide

example : urljoin "https://example.com/a/b" "c/d" = "https://example.com/a/c/d" := by
  decide

example : urljoin "https://example.com/a/b/" "../c" = "https://example.com/a/c" := by
  decide

theorem insertDesc_perm (x : DateTime × XElem) :
    ∀ l, List.Perm (insertDesc x l) (x :: l) := by
  intro l
  induction l with
  | nil => exact List.Perm.refl _
  | cons y ys ih =>
    by_cases h : dtLe x.1 y.1 = true
    · simp only [insertDesc, h, if_true]
      exact (ih.cons y).trans (List.Perm.swap x y ys)
    · simp only [insertDesc, h, if_false]
      exact List.Perm.refl _

theorem sortEntries_perm_aux :
    ∀ (l acc : List (DateTime × XElem)),
      List.Perm (l.foldl (fun acc x => insertDesc x acc) acc) (acc ++ l) := by
  intro l
  induction l with
  | nil => intro acc; simp
  | cons x xs ih =>
    intro acc
    have h1 : List.Perm (xs.foldl (fun acc x => insertDesc x acc) (insertDesc x acc))
        (insertDesc x acc ++ xs) := ih _
    have h2 : List.Perm (insertDesc x acc ++ xs) ((x :: acc) ++ xs) :=
      (insertDesc_perm x acc).append_right xs
    have h3 : List.Perm ((x :: acc) ++ xs) (acc ++ x :: xs) :=
      List.perm_middle.symm
    exact (h1.trans h2).trans h3

/-- The sorted list is a permutation of the extracted list. -/

theorem sortEntries_perm (l : List (DateTime × XElem)) :
    List.Perm (sortEntries l) l := by
  simpa using sortEntries_perm_aux l []

theorem insertDesc_pairwise (x : DateTime × XElem) :
    ∀ l, l.Pairwise entGe → (insertDesc x l).Pairwise entGe := by
  intro l
  induction l with
  | nil => intro _; exact List.pairwise_singleton _ _
  | cons y ys ih =>
    intro h
    rcases List.pairwise_cons.mp h with ⟨hy, hys⟩
    by_cases hxy : dtLe x.1 y.1 = true
    · simp only [insertDesc, hxy, if_true]
      refine List.pairwise_cons.mpr ⟨?_, ih hys⟩
      intro z hz
      have hz' : z ∈ x :: ys := (insertDesc_perm x ys).mem_iff.mp hz
      rcases List.mem_cons.mp hz' with h1 | h1
      · subst h1; exact hxy
      · exact hy z h1
    · simp only [insertDesc, hxy, if_false]
      have hyx : dtLe y.1 x.1 = true := by
        rcases dtLe_total x.1 y.1 with h1 | h1
        · exact absurd h1 hxy
        · exact h1
      refine List.pairwise_cons.mpr ⟨?_, h⟩
      intro z hz
      rcases List.mem_cons.mp hz with h1 | h1
      · subst h1; exact hyx
      · exact dtLe_trans (hy z h1) hyx

theorem sortEntries_pairwise_aux :
    ∀ (l acc : List (DateTime × XElem)), acc.Pairwise entGe →
      (l.foldl (fun acc x => insertDesc x acc) acc).Pairwise entGe := by
  intro l
  induction l with
  | nil => intro acc h; exact h
  | cons x xs ih => intro acc h; exact ih _ (insertDesc_pairwise x acc h)

/-- The sorted list is descending: every element is `dtLe`-above every later
element. -/

theorem sortEntries_pairwise (l : List (DateTime × XElem)) :
    (sortEntries l).Pairwise entGe :=
  sortEntries_pairwise_aux l [] List.Pairwise.nil

theorem filter_insertDesc (t : DateTime) (x : DateTime × XElem) :
    ∀ l, l.Pairwise entGe →
      (insertDesc x l).filter (fun e => decide (e.1 = t)) =
        (if x.1 = t then l.filter (fun e => decide (e.1 = t)) ++ [x]
         else l.filter (fun e => decide (e.1 = t))) := by
  intro l
  induction l with
  | nil =>
    intro _
    by_cases hx : x.1 = t <;> simp [insertDesc, List.filter_cons, hx]
  | cons y ys ih =>
    intro h
    rcases List.pairwise_cons.mp h with ⟨hy, hys⟩
    by_cases hxy : dtLe x.1 y.1 = true
    · simp only [insertDesc, hxy, if_true]
      by_cases hyt : y.1 = t <;> by_cases hxt : x.1 = t <;>
        simp [List.filter_cons, hyt, hxt, ih hys]
    · simp only [insertDesc, hxy, if_false]
      by_cases hxt : x.1 = t
      · have hnone : (y :: ys).filter (fun e => decide (e.1 = t)) = [] := by
          rw [List.filter_eq_nil_iff]
          intro z hz
          simp only [decide_eq_true_eq]
          intro hzt
          have hzy : dtLe z.1 y.1 = true := by
            rcases List.mem_cons.mp hz with h1 | h1
            · subst h1; exact lexLe_refl _
            · exact hy z h1
          rw [hzt, ← hxt] at hzy
          exact hxy hzy
        simp [List.filter_cons, hxt, hnone]
      · simp [List.filter_cons, hxt]

theorem sortEntries_filter_aux (t : DateTime) :
    ∀ (l acc : List (DateTime × XElem)), acc.Pairwise entGe →
      (l.foldl (fun acc x => insertDesc x acc) acc).filter (fun e => decide (e.1 = t)) =
        acc.filter (fun e => decide (e.1 = t)) ++ l.filter (fun e => decide (e.1 = t)) := by
  intro l
  induction l with
  | nil => intro acc _; simp
  | cons x xs ih =>
    intro acc h
    have step := ih (insertDesc x acc) (insertDesc_pairwise x acc h)
    by_cases hxt : x.1 = t
    · rw [List.foldl_cons, step, filter_insertDesc t x acc h, if_pos hxt]
      simp [List.filter_cons, hxt]
    · rw [List.foldl_cons, step, filter_insertDesc t x acc h, if_neg hxt]
      simp [List.filter_cons, hxt]

/-- Stability: the subsequence of entries carrying any fixed timestamp is
unchanged by the sort, i.e. tied entries keep their extraction order. -/

theorem sortEntries_filter (t : DateTime) (l : List (DateTime × XElem)) :
    (sortEntries l).filter (fun e => decide (e.1 = t)) =
      l.filter (fun e => decide (e.1 = t)) := by
  simpa using sortEntries_filter_aux t l [] List.Pairwise.nil

theorem heapWFFrom_spec :
    ∀ (l : List ENode) (k i : Nat) (nd : ENode), heapWFFrom k l = true →
      l[i]? = some nd → ∀ c ∈ nd.children, c < k + i := by
  intro l
  induction l with
  | nil => intro k i nd _ hget; simp at hget
  | cons n rest ih =>
    intro k i nd hwf hget
    have hsplit := hwf
    simp only [heapWFFrom, Bool.and_eq_true] at hsplit
    cases i with
    | zero =>
      simp only [List.getElem?_cons_zero, Option.some.injEq] at hget
      subst hget
      intro c hc
      have := List.all_eq_true.mp hsplit.1 c hc
      simpa using this
    | succ j =>
      simp only [List.getElem?_cons_succ] at hget
      intro c hc
      have := ih (k + 1) j nd hsplit.2 hget c hc
      omega

theorem heapWF_spec {h : Heap} (hwf : heapWF h = true) :
    ∀ (i : Nat) (nd : ENode), h[i]? = some nd → ∀ c ∈ nd.children, c < i := by
  intro i nd hget c hc
  have := heapWFFrom_spec h 0 i nd hwf hget c hc
  omega

/-- Reading depends only on the store entries below any bound that covers the
roots, provided children ids decrease (well-formedness). -/

theorem readTreeL_congr (n : Nat) (h1 h2 : Heap)
    (hag : ∀ j, j < n → h1[j]? = h2[j]?)
    (hwf : ∀ (i : Nat) (nd : ENode), h2[i]? = some nd → ∀ c ∈ nd.children, c < i) :
    ∀ fuel ids, (∀ i ∈ ids, i < n) → readTreeL fuel h1 ids = readTreeL fuel h2 ids := by
  intro fuel
  induction fuel with
  | zero => intro ids _; rfl
  | succ f ihf =>
    intro ids hb
    simp only [readTreeL]
    apply List.map_congr_left
    intro i hi
    have hin : i < n := hb i hi
    rw [hag i hin]
    cases hcase : h2[i]? with
    | none => rfl
    | some nd =>
      have hch : ∀ c ∈ nd.children, c < n :=
        fun c hc => Nat.lt_trans (hwf i nd hcase c hc) hin
      show XElem.mk nd.tag nd.attrs nd.text (readTreeL f h1 nd.children) =
        XElem.mk nd.tag nd.attrs nd.text (readTreeL f h2 nd.children)
      rw [ihf nd.children hch]

/-- The deep copy only appends fresh nodes: the old store is a prefix of the
new one, every returned id is fresh, and one id is returned per root. -/

theorem deepcopyL_extends :
    ∀ fuel (h : Heap) ids,
      (∃ ext, (deepcopyL fuel h ids).1 = h ++ ext) ∧
        (∀ j ∈ (deepcopyL fuel h ids).2, h.length ≤ j) ∧
        (deepcopyL fuel h ids).2.length = ids.length := by
  intro fuel
  induction fuel with
  | zero =>
    intro h ids
    induction ids generalizing h with
    | nil =>
      exact ⟨⟨[], by simp [deepcopyL]⟩, by intro j hj; simp [deepcopyL] at hj,
        by simp [deepcopyL]⟩
    | cons i is ihl =>
      obtain ⟨⟨ext, hext⟩, hge, hlen⟩ := ihl (h ++ [emptyENode])
      refine ⟨⟨emptyENode :: ext, ?_⟩, ?_, ?_⟩
      · simp only [deepcopyL]; rw [hext]; simp
      · intro j hj
        simp only [deepcopyL, List.mem_cons] at hj
        rcases hj with h1 | h1
        · omega
        · have := hge j h1
          simp only [List.length_append, List.length_cons, List.length_nil] at this
          omega
      · simp only [deepcopyL, List.length_cons, hlen]
  | succ f ihf =>
    intro h ids
    induction ids generalizing h with
    | nil =>
      exact ⟨⟨[], by simp [deepcopyL]⟩, by intro j hj; simp [deepcopyL] at hj,
        by simp [deepcopyL]⟩
    | cons i is ihl =>
      cases hi : h[i]? with
      | none =>
        obtain ⟨⟨ext, hext⟩, hge, hlen⟩ := ihl (h ++ [emptyENode])
        refine ⟨⟨emptyENode :: ext, ?_⟩, ?_, ?_⟩
        · simp only [deepcopyL, hi]; rw [hext]; simp
        · intro j hj
          simp only [deepcopyL, hi, List.mem_cons] at hj
          rcases hj with h1 | h1
          · omega
          · have := hge j h1
            simp only [List.length_append, List.length_cons, List.length_nil] at this
            omega
        · simp only [deepcopyL, hi, List.length_cons, hlen]
      | some nd =>
        obtain ⟨⟨ext1, hext1⟩, _, _⟩ := ihf h nd.children
        obtain ⟨⟨ext2, hext2⟩, hge2, hlen2⟩ :=
          ihl ((deepcopyL f h nd.children).1 ++
            [⟨nd.tag, nd.attrs, nd.text, (deepcopyL f h nd.children).2⟩])
        refine ⟨⟨ext1 ++ [⟨nd.tag, nd.attrs, nd.text, (deepcopyL f h nd.children).2⟩] ++ ext2, ?_⟩,
          ?_, ?_⟩
        · simp only [deepcopyL, hi]
          rw [hext2, hext1]
          simp
        · intro j hj
          simp only [deepcopyL, hi, List.mem_cons] at hj
          rcases hj with h1 | h1
          · have : h.length ≤ (deepcopyL f h nd.children).1.length := by
              rw [hext1]; simp
            omega
          · have := hge2 j h1
            have hlen1 : h.length ≤ (deepcopyL f h nd.children).1.length := by
              rw [hext1]; simp
            simp only [List.length_append, List.length_cons, List.length_nil] at this
            omega
        · simp only [deepcopyL, hi, List.length_cons, hlen2]

theorem appendChild_getElem? (h : Heap) (p c j : Nat) (hne : j ≠ p) :
    (appendChild h p c)[j]? = h[j]? := by
  unfold appendChild
  cases hp : h[p]? with
  | none => rfl
  | some n => simp [List.getElem?_set_ne (Ne.symm hne)]

theorem foldl_appendChild_getElem? (cid : Nat) :
    ∀ (entries : List (DateTime × Nat)) (hh : Heap) (j : Nat), j ≠ cid →
      (entries.foldl (fun hh e => appendChild hh cid e.2) hh)[j]? = hh[j]? := by
  intro entries
  induction entries with
  | nil => intro hh j _; rfl
  | cons e es ih =>
    intro hh j hne
    rw [List.foldl_cons, ih _ j hne, appendChild_getElem? _ _ _ _ hne]

/-- The store below the original length is untouched by `save_atom_feed_heap`. -/

theorem save_heap_getElem? (h : Heap) (baseId : Nat)
    (entries : List (DateTime × Nat)) (j : Nat) (hj : j < h.length) :
    (save_atom_feed_heap h baseId entries).1[j]? = h[j]? := by
  obtain ⟨⟨ext, hext⟩, hge, hlen⟩ := deepcopyL_extends (baseId + 1) h [baseId]
  have hcid : h.length ≤ (deepcopyL (baseId + 1) h [baseId]).2.headD 0 := by
    cases hr : (deepcopyL (baseId + 1) h [baseId]).2 with
    | nil => rw [hr] at hlen; simp at hlen
    | cons c cs =>
      have : c ∈ (deepcopyL (baseId + 1) h [baseId]).2 := by
        rw [hr]; exact List.mem_cons_self c cs
      have := hge c this
      simp [hr, this]
  unfold save_atom_feed_heap
  rw [foldl_appendChild_getElem? _ entries _ j (by omega), hext,
    List.getElem?_append_left hj]

/-- Values of pre-existing elements are unchanged by `save_atom_feed_heap`. -/

theorem save_heap_readElem (h : Heap) (baseId : Nat)
    (entries : List (DateTime × Nat)) (hwf : heapWF h = true)
    (i : Nat) (hi : i < h.length) :
    readElem (save_atom_feed_heap h baseId entries).1 i = readElem h i := by
  unfold readElem
  rw [readTreeL_congr h.length _ h
    (fun j hj => save_heap_getElem? h baseId entries j hj)
    (heapWF_spec hwf) (i + 1) [i]
    (by intro x hx; simp only [List.mem_singleton] at hx; omega)]

theorem extracted_entry_tag (b : String) (nF : DateTime) (nA : Nat → DateTime)
    (arts : List Article) : ∀ e ∈ extractedEntries b nF nA arts, e.2.tag = "entry" := by
  intro e he
  unfold extractedEntries create_base_feed_and_entries at he
  simp only [List.mem_map] at he
  obtain ⟨p, _, hpe⟩ := he
  rw [← hpe]
  rfl

theorem base_children_no_entry (b : String) (nF : DateTime) :
    (baseFeedElem b nF).children.filter (fun c => c.tag == "entry") = [] := by
  simp [baseFeedElem, XElem.tag, XElem.children, List.filter]

theorem entryNodes_save (b : String) (nF : DateTime) (l : List (DateTime × XElem))
    (hl : ∀ e ∈ l, e.2.tag = "entry") :
    entryNodes (save_atom_feed (baseFeedElem b nF) l) = l.map (fun e => e.2) := by
  unfold entryNodes save_atom_feed
  show ((baseFeedElem b nF).children ++ l.map (fun e => e.2)).filter
      (fun c => c.tag == "entry") = l.map (fun e => e.2)
  rw [List.filter_append, base_children_no_entry, List.nil_append]
  apply List.filter_eq_self.mpr
  intro x hx
  simp only [List.mem_map] at hx
  obtain ⟨e, he, hex⟩ := hx
  rw [← hex, hl e he]
  rfl

/-- C1: the Assembler orders entries by `publishedAt` descending in both
output documents (their entry sequences are the sorted list and its 20-prefix,
both pairwise descending), and the sort is stable (entries with any fixed
timestamp keep extraction order) and drops or duplicates nothing (it is a
permutation of the extracted sequence). -/

theorem sort_desc_stable_in_both_docs (b : String) (nF : DateTime)
    (nA : Nat → DateTime) (arts : List Article) :
    (fullFeedDoc b nF nA arts).children =
        (baseFeedElem b nF).children ++
          (sortEntries (extractedEntries b nF nA arts)).map (fun e => e.2) ∧
    (recentFeedDoc b nF nA arts).children =
        (baseFeedElem b nF).children ++
          ((sortEntries (extractedEntries b nF nA arts)).take 20).map (fun e => e.2) ∧
    (sortEntries (extractedEntries b nF nA arts)).Pairwise entGe ∧
    ((sortEntries (extractedEntries b nF nA arts)).take 20).Pairwise entGe ∧
    (∀ t, (sortEntries (extractedEntries b nF nA arts)).filter
        (fun e => decide (e.1 = t)) =
      (extractedEntries b nF nA arts).filter (fun e => decide (e.1 = t))) ∧
    List.Perm (sortEntries (extractedEntries b nF nA arts))
      (extractedEntries b nF nA arts) := by
  refine ⟨rfl, rfl, sortEntries_pairwise _, ?_, fun t => sortEntries_filter t _,
    sortEntries_perm _⟩
  exact List.Pairwise.sublist (List.take_sublist _ _) (sortEntries_pairwise _)

/-- C2: the recent document contains exactly `min 20 n` entries where `n` is
the total entry count, and they are exactly the first `min 20 n` elements of
the sorted full sequence; the builder is total, so fewer than 20 entries is
never an error. -/

theorem recent_is_truncation (b : String) (nF : DateTime) (nA : Nat → DateTime)
    (arts : List Article) :
    entryNodes (fullFeedDoc b nF nA arts) =
        (sortEntries (extractedEntries b nF nA arts)).map (fun e => e.2) ∧
    entryNodes (recentFeedDoc b nF nA arts) =
        ((sortEntries (extractedEntries b nF nA arts)).take
          (min 20 (sortEntries (extractedEntries b nF nA arts)).length)).map
            (fun e => e.2) ∧
    (entryNodes (recentFeedDoc b nF nA arts)).length =
        min 20 (entryNodes (fullFeedDoc b nF nA arts)).length := by
  have hsort_tags : ∀ e ∈ sortEntries (extractedEntries b nF nA arts),
      e.2.tag = "entry" :=
    fun e he =>
      extracted_entry_tag b nF nA arts e ((sortEntries_perm _).mem_iff.mp he)
  have htake_tags : ∀ e ∈ (sortEntries (extractedEntries b nF nA arts)).take 20,
      e.2.tag = "entry" :=
    fun e he => hsort_tags e (List.mem_of_mem_take he)
  have hfull : entryNodes (fullFeedDoc b nF nA arts) =
      (sortEntries (extractedEntries b nF nA arts)).map (fun e => e.2) :=
    entryNodes_save b nF _ hsort_tags
  have hrec : entryNodes (recentFeedDoc b nF nA arts) =
      ((sortEntries (extractedEntries b nF nA arts)).take 20).map (fun e => e.2) :=
    entryNodes_save b nF _ htake_tags
  have htake : (sortEntries (extractedEntries b nF nA arts)).take
      (min 20 (sortEntries (extractedEntries b nF nA arts)).length) =
      (sortEntries (extractedEntries b nF nA arts)).take 20 := by
    rw [← List.take_take, List.take_length]
  refine ⟨hfull, ?_, ?_⟩
  · rw [hrec, htake]
  · rw [hrec, hfull]
    simp [List.length_take, List.length_map]

/-- C8: when the record-shape selector matches zero article nodes, extraction
yields the empty entry sequence (not an error), and both output documents are
still the plain feed envelope: a `feed` root with the Atom namespace whose
children are exactly the five metadata elements and which contains no entry
node. -/

theorem zero_matches_envelope_only (b : String) (nF : DateTime)
    (nA : Nat → DateTime) :
    extractedEntries b nF nA [] = [] ∧
    fullFeedDoc b nF nA [] = baseFeedElem b nF ∧
    recentFeedDoc b nF nA [] = baseFeedElem b nF ∧
    (baseFeedElem b nF).tag = "feed" ∧
    (baseFeedElem b nF).attrs = [("xmlns", "http://www.w3.org/2005/Atom")] ∧
    (baseFeedElem b nF).children.map XElem.tag =
      ["title", "id", "author", "link", "updated"] ∧
    entryNodes (fullFeedDoc b nF nA []) = [] ∧
    entryNodes (recentFeedDoc b nF nA []) = [] := by
  exact ⟨rfl, rfl, rfl, rfl, rfl, rfl, rfl, rfl⟩

/-- C3: every date text that parses successfully under the `"%b %d, %Y"`
format yields the timestamp at exactly 12:00:00 UTC (all smaller fields zero)
on the parsed calendar date, independently of the clock; in particular
`"Sep 29, 2025"` parses to calendar date 2025-09-29 at noon UTC. -/

theorem parse_date_noon (now : DateTime) (s : String) (y m d : Nat)
    (h : parseDateText (pystrip s) = some (y, m, d)) :
    parse_date now (some s) = (noonUTC y m d, none) ∧
    noonUTC y m d = ⟨y, m, d, 12, 0, 0, 0⟩ ∧
    parseDateText (pystrip "Sep 29, 2025") = some (2025, 9, 29) ∧
    parse_date now (some "Sep 29, 2025") = (⟨2025, 9, 29, 12, 0, 0, 0⟩, none) := by
  refine ⟨?_, rfl, by decide, rfl⟩
  have hne : s ≠ "" := by
    intro hs
    subst hs
    rw [show pystrip "" = "" from rfl,
      show parseDateText "" = none from by decide] at h
    exact Option.noConfusion h
  unfold parse_date
  simp [hne, h]

/-- Witness for C3 at the spec's example input. -/

theorem parse_date_noon_witness :
    parse_date ⟨2025, 10, 12, 0, 0, 0, 0⟩ (some "Sep 29, 2025") =
        (noonUTC 2025 9 29, none) ∧
    noonUTC 2025 9 29 = ⟨2025, 9, 29, 12, 0, 0, 0⟩ ∧
    parseDateText (pystrip "Sep 29, 2025") = some (2025, 9, 29) ∧
    parse_date ⟨2025, 10, 12, 0, 0, 0, 0⟩ (some "Sep 29, 2025") =
        (⟨2025, 9, 29, 12, 0, 0, 0⟩, none) :=
  parse_date_noon ⟨2025, 10, 12, 0, 0, 0, 0⟩ "Sep 29, 2025" 2025 9 29 (by decide)

/-- C4 counterexample: for a missing date text (and likewise for an empty
one), `parse_date` falls back to the clock value but emits no diagnostic at
all, contradicting the claim that a warning identifying the unparseable text
is emitted for every missing or unparseable date text. -/

theorem missing_date_no_diagnostic :
    parse_date ⟨2025, 10, 12, 0, 0, 0, 0⟩ none =
        (⟨2025, 10, 12, 0, 0, 0, 0⟩, none) ∧
    parse_date ⟨2025, 10, 12, 0, 0, 0, 0⟩ (some "") =
        (⟨2025, 10, 12, 0, 0, 0, 0⟩, none) :=
  ⟨rfl, rfl⟩

/-- C4 amended: on a nonempty date text that fails to parse, `parse_date`
returns the current clock instant together with a stderr diagnostic naming
the stripped text; on a missing or empty date text it returns the current
clock instant silently. -/

theorem unparseable_date_fallback (now : DateTime) (s : String)
    (hne : s ≠ "") (hp : parseDateText (pystrip s) = none) :
    parse_date now (some s) = (now, some (warnMsg (pystrip s))) ∧
    parse_date now none = (now, none) ∧
    parse_date now (some "") = (now, none) := by
  refine ⟨?_, rfl, rfl⟩
  unfold parse_date
  simp [hne, hp]

/-- Witness for the amended C4 at the spec's example input `"29 Sep"`. -/

theorem unparseable_date_fallback_witness :
    parse_date ⟨2025, 10, 12, 0, 0, 0, 0⟩ (some "29 Sep") =
        (⟨2025, 10, 12, 0, 0, 0, 0⟩, some (warnMsg (pystrip "29 Sep"))) ∧
    parse_date ⟨2025, 10, 12, 0, 0, 0, 0⟩ none =
        (⟨2025, 10, 12, 0, 0, 0, 0⟩, none) ∧
    parse_date ⟨2025, 10, 12, 0, 0, 0, 0⟩ (some "") =
        (⟨2025, 10, 12, 0, 0, 0, 0⟩, none) :=
  unparseable_date_fallback ⟨2025, 10, 12, 0, 0, 0, 0⟩ "29 Sep" (by decide) (by decide)

/-- C5: the content element synthesised for every article record carries
exactly the spec formula: summary paragraph then image paragraph when an image
is present (summary paragraph omitted without a summary), just the summary
paragraph with a summary and no image, and no content element with neither. -/

theorem content_synthesis (b : String) (now : DateTime) (a : Article) :
    ((buildEntry b now a).2).childText "content" =
      specContentFormula (articleSummaryOpt a) (articleImg a) := by
  unfold buildEntry XElem.childText XElem.childNamed articleSummaryOpt specContentFormula
  cases himg : articleImg a with
  | none =>
    by_cases hs : articleSummary a = "" <;>
      simp [himg, hs, List.find?, XElem.children, XElem.tag, XElem.text]
  | some pr =>
    obtain ⟨src, alt⟩ := pr
    by_cases hs : articleSummary a = "" <;>
      simp [himg, hs, List.find?, XElem.children, XElem.tag, XElem.text]

/-- C6: every built entry has a `title`, an `id` (the url, possibly the bare
base URL) and an `updated` child with non-null text, and it has a `content`
child exactly when the record has a summary or image data. -/

theorem entry_field_invariants (b : String) (now : DateTime) (a : Article) :
    (((buildEntry b now a).2).childText "title").isSome ∧
    (((buildEntry b now a).2).childText "id").isSome ∧
    (((buildEntry b now a).2).childText "updated").isSome ∧
    ((((buildEntry b now a).2).childNamed "content").isSome ↔
      ((articleSummaryOpt a).isSome ∨ (articleImg a).isSome)) := by
  unfold buildEntry XElem.childText XElem.childNamed articleSummaryOpt
  cases himg : articleImg a with
  | none =>
    by_cases hs : articleSummary a = "" <;>
      simp [himg, hs, List.find?, XElem.children, XElem.tag, XElem.text]
  | some pr =>
    obtain ⟨src, alt⟩ := pr
    by_cases hs : articleSummary a = "" <;>
      simp [himg, hs, List.find?, XElem.children, XElem.tag, XElem.text]

/-- C7 counterexample: for an article with no link node and the spec's own
base URL, the entry url is the base URL itself - `urljoin` maps the empty
href fallback to the base - and not the empty string the claim requires. -/

theorem no_link_url_is_base_not_empty :
    ((buildEntry "https://example.com/engineering" ⟨2025, 9, 29, 12, 0, 0, 0⟩
        ⟨none, none, none, none, none⟩).2).childText "id" =
      some "https://example.com/engineering" ∧
    ((buildEntry "https://example.com/engineering" ⟨2025, 9, 29, 12, 0, 0, 0⟩
        ⟨none, none, none, none, none⟩).2).childText "id" ≠ some "" := by
  constructor
  · decide
  · decide

/-- C7 amended: the entry url (both the `id` text and the `link` href) is the
extracted href resolved against the base URL by standard URL-joining
semantics: an href whose scheme differs from the base's passes through
unchanged (concrete same-scheme absolute hrefs likewise), the spec's relative

example resolves as stated, and when no link is found the href falls back to
`""`, which URL-joining maps to the base URL itself rather than to `""`. -/

theorem entry_url_resolution (b : String) (now : DateTime) (a : Article)
    (bb uu : String) (hb : bb ≠ "") (hu : uu ≠ "")
    (hs : (urlparse uu (urlparse bb "").scheme).scheme ≠ (urlparse bb "").scheme) :
    ((buildEntry b now a).2).childText "id" = some (urljoin b (articleHref a)) ∧
    ((buildEntry b now a).2).childNamed "link" =
      some ⟨"link", [("href", urljoin b (articleHref a))], none, []⟩ ∧
    articleHref ⟨none, none, none, none, none⟩ = "" ∧
    urljoin bb "" = bb ∧
    urljoin bb uu = uu ∧
    urljoin "https://example.com/engineering" "/2025/09/foo" =
      "https://example.com/2025/09/foo" ∧
    urljoin "https://example.com/engineering" "https://www.anthropic.com/news/x" =
      "https://www.anthropic.com/news/x" := by
  refine ⟨rfl, rfl, rfl, ?_, ?_, by decide, by decide⟩
  · unfold urljoin
    simp [hb]
  · unfold urljoin
    simp [hb, hu, hs]

/-- Witness for the amended C7: a no-link article against the spec's base URL
and a cross-scheme absolute href. -/

theorem entry_url_resolution_witness :
    ((buildEntry "https://example.com/engineering" ⟨2025, 9, 29, 12, 0, 0, 0⟩
        ⟨none, none, none, none, none⟩).2).childText "id" =
      some (urljoin "https://example.com/engineering"
        (articleHref ⟨none, none, none, none, none⟩)) ∧
    ((buildEntry "https://example.com/engineering" ⟨2025, 9, 29, 12, 0, 0, 0⟩
        ⟨none, none, none, none, none⟩).2).childNamed "link" =
      some ⟨"link", [("href", urljoin "https://example.com/engineering"
        (articleHref ⟨none, none, none, none, none⟩))], none, []⟩ ∧
    articleHref ⟨none, none, none, none, none⟩ = "" ∧
    urljoin "https://example.com/engineering" "" = "https://example.com/engineering" ∧
    urljoin "https://example.com/engineering" "mailto:contact@example.com" =
      "mailto:contact@example.com" ∧
    urljoin "https://example.com/engineering" "/2025/09/foo" =
      "https://example.com/2025/09/foo" ∧
    urljoin "https://example.com/engineering" "https://www.anthropic.com/news/x" =
      "https://www.anthropic.com/news/x" :=
  entry_url_resolution "https://example.com/engineering" ⟨2025, 9, 29, 12, 0, 0, 0⟩
    ⟨none, none, none, none, none⟩ "https://example.com/engineering"
    "mailto:contact@example.com" (by decide) (by decide) (by decide)

/-- C10: a summary node whose text strips to the empty string is handled
exactly like an absent summary node: the built entry is identical to the one
built with no summary node, and no summary element is emitted. -/

theorem blank_summary_as_absent (b : String) (now : DateTime) (a : Article)
    (s : String) (hs : a.summaryElem = some s) (hws : pystrip s = "") :
    buildEntry b now a =
      buildEntry b now ⟨a.titleElem, a.linkElem, none, a.dateElem, a.imgElem⟩ ∧
    ((buildEntry b now a).2).childNamed "summary" = none := by
  have h1 : articleSummary a = "" := by
    unfold articleSummary
    rw [hs]
    exact hws
  have h2 : articleSummary ⟨a.titleElem, a.linkElem, none, a.dateElem, a.imgElem⟩ =
      "" := rfl
  have e1 : articleTitle ⟨a.titleElem, a.linkElem, none, a.dateElem, a.imgElem⟩ =
      articleTitle a := rfl
  have e2 : articleHref ⟨a.titleElem, a.linkElem, none, a.dateElem, a.imgElem⟩ =
      articleHref a := rfl
  have e3 : articleDateText ⟨a.titleElem, a.linkElem, none, a.dateElem, a.imgElem⟩ =
      articleDateText a := rfl
  have e4 : articleImg ⟨a.titleElem, a.linkElem, none, a.dateElem, a.imgElem⟩ =
      articleImg a := rfl
  constructor
  · unfold buildEntry
    rw [h1, h2, e1, e2, e3, e4]
  · unfold buildEntry XElem.childNamed
    cases himg : articleImg a with
    | none => simp [h1, himg, List.find?, XElem.children, XElem.tag]
    | some pr =>
      obtain ⟨src, alt⟩ := pr
      simp [h1, himg, List.find?, XElem.children, XElem.tag]

/-- Witness for C10: a whitespace-only summary node. -/

theorem blank_summary_as_absent_witness :
    buildEntry "https://www.anthropic.com/engineering" ⟨2025, 9, 29, 12, 0, 0, 0⟩
        ⟨some "T", none, some "  ", none, none⟩ =
      buildEntry "https://www.anthropic.com/engineering" ⟨2025, 9, 29, 12, 0, 0, 0⟩
        ⟨some "T", none, none, none, none⟩ ∧
    ((buildEntry "https://www.anthropic.com/engineering" ⟨2025, 9, 29, 12, 0, 0, 0⟩
        ⟨some "T", none, some "  ", none, none⟩).2).childNamed "summary" = none :=
  blank_summary_as_absent "https://www.anthropic.com/engineering"
    ⟨2025, 9, 29, 12, 0, 0, 0⟩ ⟨some "T", none, some "  ", none, none⟩ "  "
    rfl (by decide)

/-- C9: building one output document neither mutates the shared base feed
element nor any entry element: on a well-formed store, after
`save_atom_feed_heap` the value trees of the base feed element and of every
entry element are unchanged, so the recent-feed build observes exactly the
state from before the full-feed build. -/

theorem build_does_not_mutate_shared_state (h : Heap) (baseId : Nat)
    (entries : List (DateTime × Nat)) (hwf : heapWF h = true)
    (hb : baseId < h.length)
    (hents : entries.all (fun e => decide (e.2 < h.length)) = true) :
    readElem (save_atom_feed_heap h baseId entries).1 baseId = readElem h baseId ∧
    entries.map (fun e => readElem (save_atom_feed_heap h baseId entries).1 e.2) =
      entries.map (fun e => readElem h e.2) := by
  refine ⟨save_heap_readElem h baseId entries hwf baseId hb, ?_⟩
  apply List.map_congr_left
  intro e he
  have hlt := List.all_eq_true.mp hents e he
  exact save_heap_readElem h baseId entries hwf e.2 (by simpa using hlt)

/-- Witness for C9: a store holding a two-node base feed element and one
entry element. -/

theorem build_does_not_mutate_shared_state_witness :
    readElem (save_atom_feed_heap
        ([⟨"title", [], some "Anthropic Engineering Blog", []⟩,
          ⟨"feed", [("xmlns", "http://www.w3.org/2005/Atom")], none, [0]⟩,
          ⟨"entry", [], none, []⟩] : Heap) 1
        [((⟨2025, 9, 29, 12, 0, 0, 0⟩ : DateTime), 2)]).1 1 =
      readElem
        ([⟨"title", [], some "Anthropic Engineering Blog", []⟩,
          ⟨"feed", [("xmlns", "http://www.w3.org/2005/Atom")], none, [0]⟩,
          ⟨"entry", [], none, []⟩] : Heap) 1 ∧
    [((⟨2025, 9, 29, 12, 0, 0, 0⟩ : DateTime), 2)].map
        (fun e => readElem (save_atom_feed_heap
          ([⟨"title", [], some "Anthropic Engineering Blog", []⟩,
            ⟨"feed", [("xmlns", "http://www.w3.org/2005/Atom")], none, [0]⟩,
            ⟨"entry", [], none, []⟩] : Heap) 1
          [((⟨2025, 9, 29, 12, 0, 0, 0⟩ : DateTime), 2)]).1 e.2) =
      [((⟨2025, 9, 29, 12, 0, 0, 0⟩ : DateTime), 2)].map
        (fun e => readElem
          ([⟨"title", [], some "Anthropic Engineering Blog", []⟩,
            ⟨"feed", [("xmlns", "http://www.w3.org/2005/Atom")], none, [0]⟩,
            ⟨"entry", [], none, []⟩] : Heap) e.2) :=
  build_does_not_mutate_shared_state
    ([⟨"title", [], some "Anthropic Engineering Blog", []⟩,
      ⟨"feed", [("xmlns", "http://www.w3.org/2005/Atom")], none, [0]⟩,
      ⟨"entry", [], none, []⟩] : Heap) 1
    [((⟨2025, 9, 29, 12, 0, 0, 0⟩ : DateTime), 2)]
    (by decide) (by decide) (by decide)

